import Mathlib

/-!
Verification development for the crussh chat server (Rust sources under src/).

The definitions below are a shallow embedding of the source files:
  channel.rs  - permission model and the channel tree node
  server.rs   - Server::channel_from_path (path resolution)
  commands.rs - the command dispatcher arms the claims mention
  user.rs     - UserConfig helpers and the per-session delivery loop
  main.rs     - Handler::data (line editor), channel_close, trim

Machine integers: PermLevel is a u8 bitset in the source; it is embedded
as Nat (values 0..=7 in practice) with bitwise or/and, and the derived
PartialOrd of the bitflags struct compares the underlying bits
numerically, hence plain Nat comparison here.  Bytes are embedded as Nat.
Strings handled by the Rust code are embedded as Lean String where they
are used as map keys, and as List Char where the claims need induction
over their characters (the reply command).  HashMap values are embedded
as association lists; the claims never depend on iteration order.
-/

namespace Crussh

/-- Embeds CommandError (commands.rs). -/
inductive CommandError where
  | InvalidUtf8
  | InvalidArgs
  | InvalidPath
  | InvalidCommand
  | NotFound
  | AlreadyExists
  | Forbidden
  | Unimplemented
deriving DecidableEq, Repr

/-- PermLevel bits (channel.rs bitflags): NONE. -/
def NONE : Nat := 0

/-- PermLevel bits (channel.rs bitflags): READ = 1. -/
def READ : Nat := 1

/-- PermLevel bits (channel.rs bitflags): WRITE = 1 shl 1. -/
def WRITE : Nat := 2

/-- PermLevel bits (channel.rs bitflags): MANAGE = 1 shl 2. -/
def MANAGE : Nat := 4

/-- PermLevel is a u8 bitset in the source; embedded as Nat. -/
abbrev PermLevel := Nat

/-- Embeds RestrictionKind (channel.rs). -/
inductive RestrictionKind where
  | User (name : String)
  | Role (name : String)
  | All
deriving DecidableEq, Repr

/-- Embeds PermEntry = (RestrictionKind, PermLevel) (channel.rs). -/
abbrev PermEntry := RestrictionKind × PermLevel

/-- Embeds the tree part of struct Channel (channel.rs): the perms list and
the children map (HashMap embedded as an association list).  The runtime
bus handles (tx, notify) carry no tree data and are modelled separately as
per-subscriber event queues. -/
inductive Channel where
  | mk (perms : List PermEntry) (children : List (String × Channel))

/-- Projection for the perms field. -/
def Channel.perms : Channel → List PermEntry
  | .mk p _ => p

/-- Projection for the children field. -/
def Channel.children : Channel → List (String × Channel)
  | .mk _ c => c

/-- HashMap::get on the children map. -/
def lookupChild (cs : List (String × Channel)) (name : String) : Option Channel :=
  (cs.find? (fun p => p.1 == name)).map Prod.snd

/-- HashMap::contains_key on the children map. -/
def containsChild (cs : List (String × Channel)) (name : String) : Bool :=
  (lookupChild cs name).isSome

/-- HashMap::insert on the children map (replaces an existing binding). -/
def setChild (cs : List (String × Channel)) (name : String) (c : Channel) :
    List (String × Channel) :=
  match cs with
  | [] => [(name, c)]
  | p :: rest => if p.1 == name then (name, c) :: rest else p :: setChild rest name c

/-- HashMap::remove on the children map. -/
def removeChild (cs : List (String × Channel)) (name : String) :
    List (String × Channel) :=
  match cs with
  | [] => []
  | p :: rest => if p.1 == name then rest else p :: removeChild rest name

/-! ### Paths

The commands operate on std::path::Path values built by
user.path.join(arg), then parent() / file_name() / iter().  A path is
embedded as an absolute flag plus its normal components.  The fragment
of Path semantics the program exercises (absolute or relative paths of
plain names, no dot components) is modelled. -/

/-- Embedded std::path: absolute flag plus components. -/
structure RPath where
  absolute : Bool
  comps : List String
deriving DecidableEq, Repr

/-- Splitting a character list at every slash (Path components). -/
def splitOnSlash : List Char → List (List Char)
  | [] => [[]]
  | c :: rest =>
    match splitOnSlash rest with
    | [] => [[c]]
    | h :: t => if c = '/' then [] :: h :: t else (c :: h) :: t

/-- Path::new on a token string: leading slash makes it absolute, empty
components are normalized away. -/
def parsePath (s : List Char) : RPath :=
  ⟨s.head? == some '/',
   ((splitOnSlash s).filter (fun l => !(l.isEmpty))).map (fun l => String.mk l)⟩

/-- Path::join: an absolute argument replaces the base path. -/
def pathJoin (a b : RPath) : RPath :=
  if b.absolute then b else ⟨a.absolute, a.comps ++ b.comps⟩

/-- Path::parent: drops the last component; none for the root or an empty
path. -/
def pathParent (p : RPath) : Option RPath :=
  match p.comps with
  | [] => none
  | _ :: _ => some ⟨p.absolute, p.comps.dropLast⟩

/-- Path::file_name: the last component, if any. -/
def pathFileName (p : RPath) : Option String :=
  p.comps.getLast?

/-! ### Path resolution (server.rs) -/

/-- Embeds the inner recursive fn channel_from_path (server.rs line 46):
look up the next segment; on success wrap the recursion, defaulting to the
current child when the recursion yields none. -/
def channelFromPathAux : List (String × Channel) → List String → Option Channel
  | _, [] => none
  | cs, seg :: rest =>
    match lookupChild cs seg with
    | none => none
    | some ch => some ((channelFromPathAux ch.children rest).getD ch)

/-- Embeds Server::channel_from_path (server.rs line 45): strip_prefix("/")
fails for relative paths; otherwise the inner recursion runs from the root
channel's children and defaults to the root itself. -/
def channelFromPath (root : Channel) (p : RPath) : Option Channel :=
  if p.absolute then some ((channelFromPathAux root.children p.comps).getD root) else none

/-- The node the resolution walk lands on: follows existing children and
stops at the current node as soon as a segment is missing (or the path is
exhausted).  Reference form of the getD-defaulting in channelFromPathAux. -/
def resolveNode (ch : Channel) : List String → Channel
  | [] => ch
  | seg :: rest =>
    match lookupChild ch.children seg with
    | none => ch
    | some c => resolveNode c rest

/-- Functional image of mutating through the Arc that channel_from_path
returns: apply f at the node the resolution walk lands on. -/
def updateResolved (ch : Channel) : List String → (Channel → Channel) → Channel
  | [], f => f ch
  | seg :: rest, f =>
    match lookupChild ch.children seg with
    | none => f ch
    | some c => Channel.mk ch.perms (setChild ch.children seg (updateResolved c rest f))

/-- Every segment of the path names an existing child at each step. -/
def resolvesFully (ch : Channel) : List String → Bool
  | [] => true
  | seg :: rest =>
    match lookupChild ch.children seg with
    | none => false
    | some c => resolvesFully c rest

/-! ### User accounts (user.rs) -/

/-- Embeds UserConfig::get_role (user.rs line 72): the level of the first
role grant with the given name. -/
def getRole (roles : List (String × PermLevel)) (name : String) : Option PermLevel :=
  roles.findSome? (fun p => if p.1 == name then some p.2 else none)

/-- Embeds UserConfig::get_global_perms (user.rs line 76): fold of all
role-granted levels under bitwise or. -/
def getGlobalPerms (roles : List (String × PermLevel)) : PermLevel :=
  roles.foldl (fun acc p => acc ||| p.2) NONE

/-! ### Permission sorting and resolution -/

/-- Discriminant order of the RestrictionKind variants (User, Role, All),
as used by the derived Ord. -/
def rkRank : RestrictionKind → Nat
  | .User _ => 0
  | .Role _ => 1
  | .All => 2

/-- Derived Ord::cmp on RestrictionKind: variant order first, payload
comparison within a variant. -/
def rkCmp (a b : RestrictionKind) : Ordering :=
  match a, b with
  | .User x, .User y => compare x y
  | .Role x, .Role y => compare x y
  | .All, .All => Ordering.eq
  | x, y => compare (rkRank x) (rkRank y)

/-- Ordered insertion used to embed the sort in perms_sorted. -/
def insertEntry (e : PermEntry) : List PermEntry → List PermEntry
  | [] => [e]
  | x :: xs =>
    if rkCmp e.1 x.1 = Ordering.gt then x :: insertEntry e xs else e :: x :: xs

/-- Embeds the sort performed by perms_sorted (channel.rs line 36):
sort_unstable_by(a.0.cmp(b.0)), which only runs while deserializing a
channel.  Stability is irrelevant to the claims. -/
def sortPerms (ps : List PermEntry) : List PermEntry :=
  ps.foldr insertEntry []

/-- The spec's specificity invariant: User-rules before Role-rules before
All-rules. -/
def SpecSorted (ps : List PermEntry) : Prop :=
  ps.Chain' (fun a b => rkRank a.1 ≤ rkRank b.1)

instance (ps : List PermEntry) : Decidable (SpecSorted ps) :=
  inferInstanceAs (Decidable (ps.Chain' (fun a b : PermEntry => rkRank a.1 ≤ rkRank b.1)))

/-- Matching of one restriction against an identity and its role set, as
in the spec's resolution algorithm. -/
def matchesKind (r : RestrictionKind) (ident : String) (roleSet : List String) : Bool :=
  match r with
  | .User u => u == ident
  | .Role ro => roleSet.contains ro
  | .All => true

/-- Modelled from the spec: resolve_permission (spec section 4.2) - the
source has no such function; first-match scan of the perms list, NONE when
nothing matches. -/
def resolvePermission (perms : List PermEntry) (ident : String)
    (roleSet : List String) : PermLevel :=
  match perms.find? (fun e => matchesKind e.1 ident roleSet) with
  | some e => e.2
  | none => NONE

/-! ### The mkch arm (commands.rs lines 139-159) -/

/-- The perms list the mkch arm pushes onto a fresh channel, in push
order: first the All rule with READ|WRITE, then the creator's User rule
with READ|WRITE|MANAGE. -/
def mkchPerms (uname : String) : List PermEntry :=
  [(RestrictionKind.All, READ ||| WRITE),
   (RestrictionKind.User uname, READ ||| WRITE ||| MANAGE)]

/-- The fresh channel the mkch arm builds: Channel::new() with the two
pushed perms and no children. -/
def mkchChannel (uname : String) : Channel :=
  Channel.mk (mkchPerms uname) []

/-- The mutation the mkch arm performs on the resolved parent: insert the
fresh child under the given name. -/
def mkchInsert (name uname : String) (ch : Channel) : Channel :=
  Channel.mk ch.perms (setChild ch.children name (mkchChannel uname))

/-- Embeds the mkch command arm (commands.rs lines 139-159).  The arm
reads user.path and user.name but never the user's config or any
permission data: resolve the parent of user.path.join(arg), fail with
InvalidPath when parent() or file_name() is absent, fail with
AlreadyExists on a name collision, otherwise insert the fresh child into
the resolved parent's children map.  The returned channel is the updated
tree root. -/
def mkchCmd (root : Channel) (userPath : RPath) (uname : String) (arg : List Char) :
    Except CommandError Channel :=
  let path := pathJoin userPath (parsePath arg)
  match pathParent path with
  | none => .error CommandError.InvalidPath
  | some pp =>
    match channelFromPath root pp with
    | none => .error CommandError.InvalidPath
    | some parent =>
      match pathFileName path with
      | none => .error CommandError.InvalidPath
      | some name =>
        if containsChild parent.children name then .error CommandError.AlreadyExists
        else .ok (updateResolved root pp.comps (mkchInsert name uname))

/-! ### The remove-channel arm (commands.rs lines 160-187) -/

/-- The predicate of the find in the rmch permission check: a rule matches
when it names the invoking user, a role the user's config holds, or
everyone.  The rule's own PermLevel is ignored by the source. -/
def rmchRuleMatches (uname : String) (roles : List (String × PermLevel))
    (r : RestrictionKind) : Bool :=
  match r with
  | .User u => u == uname
  | .Role ro => (getRole roles ro).isSome
  | .All => true

/-- The mutation the rmch arm performs on the resolved parent: remove the
named child. -/
def rmchRemove (name : String) (ch : Channel) : Channel :=
  Channel.mk ch.perms (removeChild ch.children name)

/-- Embeds the remove-channel arm (commands.rs lines 160-187): resolve the
parent of user.path.join(arg), look up the child (NotFound when absent),
then allow the removal when some rule of the child's perms matches the
invoker or when get_global_perms() is strictly above MANAGE (the
source's numeric greater-than on the bitflags), else Forbidden. -/
def rmchCmd (root : Channel) (userPath : RPath) (uname : String)
    (roles : List (String × PermLevel)) (arg : List Char) :
    Except CommandError Channel :=
  let path := pathJoin userPath (parsePath arg)
  match pathParent path with
  | none => .error CommandError.InvalidPath
  | some pp =>
    match channelFromPath root pp with
    | none => .error CommandError.InvalidPath
    | some parent =>
      match pathFileName path with
      | none => .error CommandError.InvalidPath
      | some name =>
        match lookupChild parent.children name with
        | none => .error CommandError.NotFound
        | some child =>
          if (child.perms.find? (fun e => rmchRuleMatches uname roles e.1)).isSome = true
              ∨ getGlobalPerms roles > MANAGE
          then .ok (updateResolved root pp.comps (rmchRemove name))
          else .error CommandError.Forbidden

/-! ### Events and the delivery loop (event.rs, channel.rs, user.rs, main.rs) -/

/-- Embeds enum Event (event.rs). -/
inductive Event where
  | msg (sender text : String)
  | reply (sender recipient text : String)
  | join (name : String)
  | leave (name : String)
  | terminate
deriving DecidableEq, Repr

/-- The events channel_close (main.rs lines 313-325) sends into the
session's current channel, in send order: Terminate first, then
Leave(user.name). -/
def channelCloseEvents (name : String) : List Event :=
  [Event.terminate, Event.leave name]

/-- One broadcast send (channel.rs SubscribedChannel::send / tokio
broadcast): the event is appended to every subscriber's queue. -/
def publish (queues : List (List Event)) (e : Event) : List (List Event) :=
  queues.map (fun q => q ++ [e])

/-- Publishing a list of events in order. -/
def publishAll (queues : List (List Event)) (es : List Event) : List (List Event) :=
  es.foldl publish queues

/-- The outcomes of rx.try_recv() in the delivery loop.  The Closed
outcome is unreachable in the source and is not modelled. -/
inductive RecvResult where
  | empty
  | lagged (n : Nat)
  | ok (e : Event)
deriving DecidableEq, Repr

/-- What one iteration of the loop does next. -/
inductive LoopAction where
  | wait
  | exit
  | deliver (e : Event)
  | lagNotice (n : Nat)
deriving DecidableEq, Repr

/-- Embeds the match on try_recv() in User::event_loop (user.rs lines
117-137): Empty suspends on the notify signal, a received Terminate breaks
the loop - whichever session sent it - any other event is rendered, and a
lag is reported with its count. -/
def loopStep : RecvResult → LoopAction
  | .empty => LoopAction.wait
  | .ok .terminate => LoopAction.exit
  | .ok e => LoopAction.deliver e
  | .lagged n => LoopAction.lagNotice n

/-- The next try_recv() outcome for a subscriber with the given queue. -/
def recvHead (q : List Event) : RecvResult :=
  match q with
  | [] => RecvResult.empty
  | e :: _ => RecvResult.ok e

/-! ### The line editor (main.rs Handler::data, trim) -/

/-- Byte-level char::is_whitespace for the Latin-1 range that a u8 cast to
char can produce: 0x09-0x0D, space, NEL (0x85) and NBSP (0xA0). -/
def isWsByte (b : Nat) : Bool :=
  b == 9 || b == 10 || b == 11 || b == 12 || b == 13 || b == 32 || b == 133 || b == 160

/-- The start index trim (main.rs line 429) computes:
position(non-whitespace) with unwrap_or(len).  List.findIdx returns the
length when no element matches, exactly the unwrap_or. -/
def trimStart (d : List Nat) : Nat :=
  d.findIdx (fun b => !(isWsByte b))

/-- The end index trim computes: rposition(non-whitespace) mapped to i+1,
or 0 when everything is whitespace. -/
def trimEnd (d : List Nat) : Nat :=
  match (d.reverse.findIdx? (fun b => !(isWsByte b))).map (fun i => d.length - 1 - i) with
  | none => 0
  | some i => i + 1

/-- The subslice trim returns.  The source takes
data.get_unchecked(start..end), whose contract requires
start <= end <= len; this total model returns the empty list when the
range is degenerate, which is where claim C10 is decided. -/
def trim (d : List Nat) : List Nat :=
  (d.drop (trimStart d)).take (trimEnd d - trimStart d)

/-- Byte-slice strip of the leading colon (byte 58) on the trimmed
buffer. -/
def stripPrefixColon (l : List Nat) : Option (List Nat) :=
  match l with
  | 58 :: rest => some rest
  | _ => none

/-- Embeds enum UserState (user.rs line 81). -/
inductive UserState where
  | info (data : List Nat)
  | normal
deriving DecidableEq, Repr

/-- The line-editor fields of struct User (user.rs line 16) that
Handler::data reads and writes: the byte buffer, the cursor offset and the
rendering state.  The connection plumbing, config and subscription are
modelled separately where a claim needs them. -/
structure EditorUser where
  buffer : List Nat
  cursor : Nat
  state : UserState
deriving DecidableEq, Repr

/-- The externally visible outcome of one Handler::data call, beside the
updated editor fields. -/
inductive HAction where
  | overlayDismissed
  | closed
  | submitCommand (line : List Nat)
  | submitMsg (text : List Nat)
  | echo
  | none
deriving DecidableEq, Repr

/-- True exactly for the byte sequences with a dedicated match arm in
Handler::data; everything else falls to the insertion arm. -/
def isControlSeq (d : List Nat) : Bool :=
  d == [3] || d == [13] || d == [127] ||
  d == [27, 91, 65] || d == [27, 91, 66] || d == [27, 91, 67] || d == [27, 91, 68]

/-- Embeds Handler::data (main.rs lines 341-426).  The arms in source
order: any input while an Info overlay is shown only restores Normal and
clears the overlay; byte 3 closes the session; byte 13 submits the buffer
(as a command when the trimmed buffer starts with a colon, else as a Msg
event, clearing buffer and cursor); byte 127 removes the byte before the
cursor; the four arrow escape sequences move or ignore the cursor; every
other sequence is spliced into the buffer at the cursor.  Command
execution itself is abstracted as the submitCommand action. -/
def handleData (u : EditorUser) (data : List Nat) : EditorUser × HAction :=
  match u.state with
  | .info _ => ({ u with state := UserState.normal }, HAction.overlayDismissed)
  | .normal =>
    if data = [3] then
      (u, HAction.closed)
    else if data = [13] then
      if u.buffer = [] then (u, HAction.none)
      else
        match stripPrefixColon (trim u.buffer) with
        | some rest => (u, HAction.submitCommand rest)
        | Option.none => (⟨[], 0, UserState.normal⟩, HAction.submitMsg u.buffer)
    else if data = [127] then
      if u.cursor = 0 then (u, HAction.none)
      else ({ u with buffer := u.buffer.eraseIdx (u.cursor - 1), cursor := u.cursor - 1 },
            HAction.echo)
    else if data = [27, 91, 65] ∨ data = [27, 91, 66] then
      (u, HAction.none)
    else if data = [27, 91, 67] then
      if u.cursor = u.buffer.length then (u, HAction.none)
      else ({ u with cursor := u.cursor + 1 }, HAction.echo)
    else if data = [27, 91, 68] then
      if u.cursor = 0 then (u, HAction.none)
      else ({ u with cursor := u.cursor - 1 }, HAction.echo)
    else
      ({ u with buffer := u.buffer.take u.cursor ++ data ++ u.buffer.drop u.cursor,
                cursor := u.cursor + data.length },
       HAction.echo)

/-- The literal statement of claim C6's rejection behavior: some maximum
buffer length exists at which every non-control input is silently ignored
(buffer and cursor unchanged). -/
def claimC6core : Prop :=
  ∃ maxLen : Nat, ∀ (u : EditorUser) (d : List Nat),
    u.state = UserState.normal → u.buffer.length = maxLen →
    isControlSeq d = false → d ≠ [] →
    (handleData u d).1.buffer = u.buffer ∧ (handleData u d).1.cursor = u.cursor

/-! ### The reply arm (commands.rs lines 86-98)

The reply arm receives the tokens the dispatcher made by splitting the
line on single spaces, rejoins them with single spaces, splits the result
once at the first space into recipient and message, and checks the
recipient against the server's account map.  Splitting and joining are
embedded on character lists so the round-trip can be proved by
induction. -/

/-- Splitting at every single space character: empty fields are kept,
exactly as Rust's split over one space does. -/
def splitSpace : List Char → List (List Char)
  | [] => [[]]
  | c :: rest =>
    match splitSpace rest with
    | [] => [[c]]
    | h :: t => if c = ' ' then [] :: h :: t else (c :: h) :: t

/-- Joining with a single space between fields. -/
def joinSpace : List (List Char) → List Char
  | [] => []
  | [x] => x
  | x :: y :: t => x ++ ' ' :: joinSpace (y :: t)

/-- Splitting once at the first space: the text before it and everything
after it, none when there is no space. -/
def splitOnceSpace : List Char → Option (List Char × List Char)
  | [] => Option.none
  | c :: rest =>
    if c = ' ' then some ([], rest)
    else (splitOnceSpace rest).map (fun p => (c :: p.1, p.2))

/-- Embeds the reply arm (commands.rs lines 86-98): join the argument
tokens with single spaces, split once at the first space (InvalidArgs when
there is none), then require the recipient to be a key of the server's
users map (NotFound otherwise).  On success the source sends
Event::Reply(user.name, name, msg); the embedding returns the
(recipient, message) pair that event carries. -/
def replyCmd (users : List (List Char)) (args : List (List Char)) :
    Except CommandError (List Char × List Char) :=
  match splitOnceSpace (joinSpace args) with
  | Option.none => .error CommandError.InvalidArgs
  | some (name, msg) =>
    if users.contains name then .ok (name, msg) else .error CommandError.NotFound

/-! ### Concrete fixtures used by the claim theorems -/

/-- A channel with no rules and no children. -/
def emptyChannel : Channel := Channel.mk [] []

/-- A root whose only child is a rule-less channel named victim. -/
def rootVictim : Channel := Channel.mk [] [("victim", emptyChannel)]

/-- A root whose only child is the leaf a. -/
def rootA : Channel := Channel.mk [] [("a", emptyChannel)]

/-!
## Theorems

First the supporting lemmas about the tree and the split/join round-trip,
then one theorem (with counterexample and witness where required) per
claim C1-C10.
-/

@[simp] theorem Channel.perms_mk (p : List PermEntry) (c : List (String × Channel)) :
    (Channel.mk p c).perms = p := rfl

@[simp] theorem Channel.children_mk (p : List PermEntry) (c : List (String × Channel)) :
    (Channel.mk p c).children = c := rfl

theorem channelFromPathAux_getD (p : List String) : ∀ ch : Channel,
    (channelFromPathAux ch.children p).getD ch = resolveNode ch p := by
  induction p with
  | nil => intro ch; simp [channelFromPathAux, resolveNode]
  | cons seg rest ih =>
    intro ch
    cases hc : lookupChild ch.children seg with
    | none => simp [channelFromPathAux, resolveNode, hc]
    | some c => simp [channelFromPathAux, resolveNode, hc, ih c]

theorem channelFromPath_eq_resolveNode (root : Channel) (p : RPath)
    (h : p.absolute = true) :
    channelFromPath root p = some (resolveNode root p.comps) := by
  simp [channelFromPath, h, channelFromPathAux_getD]

theorem lookupChild_setChild (cs : List (String × Channel)) (name : String)
    (c : Channel) : lookupChild (setChild cs name c) name = some c := by
  induction cs with
  | nil => simp [setChild, lookupChild, List.find?]
  | cons p rest ih =>
    by_cases hp : p.1 == name
    · simp [setChild, hp, lookupChild, List.find?]
    · simp only [setChild, hp, if_false]
      simpa [lookupChild, List.find?, hp] using ih

theorem resolveNode_updateResolved (p : List String) : ∀ (ch : Channel)
    (f : Channel → Channel), resolvesFully ch p = true →
    resolveNode (updateResolved ch p f) p = f (resolveNode ch p) := by
  induction p with
  | nil => intro ch f _; simp [updateResolved, resolveNode]
  | cons seg rest ih =>
    rintro ⟨ps, cs⟩ f hful
    cases hc : lookupChild cs seg with
    | none => simp [resolvesFully, hc] at hful
    | some c =>
      have hful' : resolvesFully c rest = true := by
        simpa [resolvesFully, hc] using hful
      simp [updateResolved, resolveNode, hc, lookupChild_setChild, ih c f hful']

theorem splitSpace_ne_nil (l : List Char) : splitSpace l ≠ [] := by
  cases l with
  | nil => simp [splitSpace]
  | cons c rest =>
    simp only [splitSpace]
    cases splitSpace rest with
    | nil => simp
    | cons h t => by_cases hc : c = ' ' <;> simp [hc]

theorem joinSpace_cons_cons (c : Char) (h : List Char) (t : List (List Char)) :
    joinSpace ((c :: h) :: t) = c :: joinSpace (h :: t) := by
  cases t with
  | nil => rfl
  | cons y t' => simp [joinSpace]

theorem joinSpace_splitSpace (l : List Char) : joinSpace (splitSpace l) = l := by
  induction l with
  | nil => rfl
  | cons c rest ih =>
    cases hs : splitSpace rest with
    | nil => exact absurd hs (splitSpace_ne_nil rest)
    | cons h t =>
      have ih' : joinSpace (h :: t) = rest := by rw [← hs]; exact ih
      by_cases hc : c = ' '
      · subst hc; simp [splitSpace, hs, joinSpace, ih']
      · simp [splitSpace, hs, hc, joinSpace_cons_cons, ih']

/-- Claim C1, counterexample: a session with no role grants (global OR of
role levels contains no MANAGE bit) and no channel-local rule at all on
the parent submits mkch sub at the root; the claim says this fails with
Forbidden and inserts nothing, but the arm succeeds and inserts the child
sub into the root's children map. -/
theorem c1_counterexample :
    getGlobalPerms [] &&& MANAGE = 0 ∧
    (emptyChannel.perms = []) ∧
    mkchCmd emptyChannel ⟨true, []⟩ "alice" "sub".toList
      = Except.ok (Channel.mk [] [("sub", mkchChannel "alice")]) :=
  ⟨by decide, rfl, rfl⟩

/-- Claim C1, amended: the mkch arm performs no permission check at all.
It never returns Forbidden for any tree, session or argument; and
whenever the parent of the joined path resolves (every segment existing)
and the name is free, the command succeeds and the fresh child - whose
perms grant All READ|WRITE and the creator READ|WRITE|MANAGE - is
inserted into the resolved parent's children map, regardless of the
invoker's account-level or channel-local rights. -/
theorem c1_amended :
    (∀ (root : Channel) (userPath : RPath) (uname : String) (arg : List Char),
      mkchCmd root userPath uname arg ≠ Except.error CommandError.Forbidden)
    ∧ (∀ (root : Channel) (userPath : RPath) (uname : String) (arg : List Char)
        (pp : RPath) (name : String),
        pathParent (pathJoin userPath (parsePath arg)) = some pp →
        pathFileName (pathJoin userPath (parsePath arg)) = some name →
        pp.absolute = true →
        resolvesFully root pp.comps = true →
        containsChild (resolveNode root pp.comps).children name = false →
        mkchCmd root userPath uname arg
          = Except.ok (updateResolved root pp.comps (mkchInsert name uname)) ∧
        lookupChild
            (resolveNode (updateResolved root pp.comps (mkchInsert name uname))
              pp.comps).children name
          = some (mkchChannel uname)) := by
  constructor
  · intro root userPath uname arg h
    unfold mkchCmd at h
    rcases hp : pathParent (pathJoin userPath (parsePath arg)) with _ | pp
    · simp [hp] at h
    · rcases hc : channelFromPath root pp with _ | parent
      · simp [hp, hc] at h
      · rcases hf : pathFileName (pathJoin userPath (parsePath arg)) with _ | name
        · simp [hp, hc, hf] at h
        · by_cases hcon : containsChild parent.children name <;>
            simp [hp, hc, hf, hcon] at h
  · intro root userPath uname arg pp name h1 h2 habs hful hfree
    have hres := channelFromPath_eq_resolveNode root pp habs
    constructor
    · simp [mkchCmd, h1, h2, hres, hfree]
    · rw [resolveNode_updateResolved pp.comps root _ hful]
      simp [mkchInsert, lookupChild_setChild]

/-- Claim C1, witness: the amended theorem applied at the counterexample
scenario with creator bob. -/
theorem c1_witness :
    mkchCmd emptyChannel ⟨true, []⟩ "bob" "sub".toList
      = Except.ok (Channel.mk [] [("sub", mkchChannel "bob")]) ∧
    lookupChild (Channel.mk [] [("sub", mkchChannel "bob")] : Channel).children "sub"
      = some (mkchChannel "bob") :=
  c1_amended.2 emptyChannel ⟨true, []⟩ "bob" "sub".toList ⟨true, []⟩ "sub"
    rfl rfl rfl rfl rfl

/-- Claim C3, counterexample: an invoker whose account-level OR of role
grants is exactly MANAGE (a superset of MANAGE as a bitset) removes an
existing channel whose own perms list is empty (no matching channel-local
rule); the claim says the override covers this invoker, but the source
compares with strict greater-than and returns Forbidden. -/
theorem c3_counterexample :
    getGlobalPerms [("op", MANAGE)] = MANAGE ∧
    getGlobalPerms [("op", MANAGE)] &&& MANAGE = MANAGE ∧
    rmchCmd rootVictim ⟨true, []⟩ "alice" [("op", MANAGE)] "victim".toList
      = Except.error CommandError.Forbidden :=
  ⟨by decide, by decide, rfl⟩

/-- Claim C3, amended: the global override of the remove-channel arm uses
the strict numeric comparison get_global_perms() > MANAGE on the u8 bits,
so a global level strictly above MANAGE (MANAGE plus at least one other
bit) succeeds regardless of the target channel's own perms list, while a
global level of exactly MANAGE is not covered; with no matching
channel-local rule (the local check matches rules by subject only,
ignoring their levels) and a global level at most MANAGE the command
fails with Forbidden. -/
theorem c3_amended :
    ∀ (root : Channel) (userPath : RPath) (uname : String)
      (roles : List (String × PermLevel)) (arg : List Char) (pp : RPath)
      (name : String) (parent child : Channel),
      pathParent (pathJoin userPath (parsePath arg)) = some pp →
      channelFromPath root pp = some parent →
      pathFileName (pathJoin userPath (parsePath arg)) = some name →
      lookupChild parent.children name = some child →
      (((child.perms.find? (fun e => rmchRuleMatches uname roles e.1)).isSome = false ∧
          getGlobalPerms roles ≤ MANAGE) →
        rmchCmd root userPath uname roles arg = Except.error CommandError.Forbidden)
      ∧ (getGlobalPerms roles > MANAGE →
        rmchCmd root userPath uname roles arg
          = Except.ok (updateResolved root pp.comps (rmchRemove name))) := by
  intro root userPath uname roles arg pp name parent child h1 h2 h3 h4
  have hstep : rmchCmd root userPath uname roles arg
      = if ((child.perms.find? (fun e => rmchRuleMatches uname roles e.1)).isSome = true
          ∨ getGlobalPerms roles > MANAGE)
        then Except.ok (updateResolved root pp.comps (rmchRemove name))
        else Except.error CommandError.Forbidden := by
    simp only [rmchCmd, h1, h2, h3, h4]
  constructor
  · rintro ⟨hf, hle⟩
    have hnot : ¬ ((child.perms.find?
        (fun e => rmchRuleMatches uname roles e.1)).isSome = true
        ∨ getGlobalPerms roles > MANAGE) := by
      rintro (hc | hc)
      · rw [hf] at hc; exact Bool.false_ne_true hc
      · exact absurd hle (Nat.not_le.mpr hc)
    rw [hstep, if_neg hnot]
  · intro hgt
    rw [hstep, if_pos (Or.inr hgt)]

/-- Claim C3, witness: the amended theorem applied at a concrete tree -
an invoker with global level READ|WRITE|MANAGE (strictly above MANAGE)
removes the rule-less child, and the same invoker with global level WRITE
only is refused. -/
theorem c3_witness :
    rmchCmd rootVictim ⟨true, []⟩ "alice" [("op", READ ||| WRITE ||| MANAGE)]
      "victim".toList = Except.ok (Channel.mk [] []) ∧
    rmchCmd rootVictim ⟨true, []⟩ "alice" [("op", WRITE)] "victim".toList
      = Except.error CommandError.Forbidden :=
  ⟨(c3_amended rootVictim ⟨true, []⟩ "alice" [("op", READ ||| WRITE ||| MANAGE)]
      "victim".toList ⟨true, []⟩ "victim" rootVictim emptyChannel
      rfl rfl rfl rfl).2 (by decide),
   (c3_amended rootVictim ⟨true, []⟩ "alice" [("op", WRITE)]
      "victim".toList ⟨true, []⟩ "victim" rootVictim emptyChannel
      rfl rfl rfl rfl).1 ⟨by decide, by decide⟩⟩

/-- Claim C4: evaluation of Server::channel_from_path at the failing
input.  With a tree whose only child is the leaf a, the absolute path
/a/b - whose prefix /a resolves but whose next segment b names no child -
does not fail: it returns the deepest existing prefix node a; likewise
/nope returns the root itself.  Resolution only returns none for a
relative path (strip_prefix("/") failing).  This contradicts the claim,
which requires failure whenever some segment names no existing child. -/
theorem c4_code_bug_eval :
    lookupChild emptyChannel.children "b" = none ∧
    channelFromPath rootA ⟨true, ["a", "b"]⟩ = some emptyChannel ∧
    channelFromPath rootA ⟨true, ["nope"]⟩ = some rootA ∧
    channelFromPath rootA ⟨false, ["a"]⟩ = none :=
  ⟨rfl, rfl, rfl, rfl⟩

/-- Claim C5, counterexample: the perms list the mkch arm builds for
creator alice has the All rule before the User rule, so it is not sorted
by restriction specificity, and first-match resolution for alice on this
freshly created channel yields the All entry's level READ|WRITE, not the
User entry's READ|WRITE|MANAGE. -/
theorem c5_counterexample :
    mkchPerms "alice"
      = [(RestrictionKind.All, 3), (RestrictionKind.User "alice", 7)] ∧
    ¬ SpecSorted (mkchPerms "alice") ∧
    resolvePermission (mkchPerms "alice") "alice" [] = 3 ∧
    (3 : Nat) ≠ 7 :=
  ⟨rfl, by simp [SpecSorted, mkchPerms, List.chain'_cons, rkRank], rfl, by decide⟩

/-- Claim C5, amended: only deserialization (perms_sorted) sorts a perms
list by specificity; the mkch arm pushes the All rule before the
creator's User rule, so a freshly created channel's perms are not
specificity-sorted and first-match resolution for the creator yields the
All entry's READ|WRITE.  After the deserialize-time sort the list is
specificity-sorted and first-match for the creator yields the User
entry's READ|WRITE|MANAGE. -/
theorem c5_amended (u : String) :
    ¬ SpecSorted (mkchPerms u) ∧
    SpecSorted (sortPerms (mkchPerms u)) ∧
    resolvePermission (mkchPerms u) u [] = READ ||| WRITE ∧
    resolvePermission (sortPerms (mkchPerms u)) u [] = READ ||| WRITE ||| MANAGE := by
  have hsort : sortPerms (mkchPerms u)
      = [(RestrictionKind.User u, READ ||| WRITE ||| MANAGE),
         (RestrictionKind.All, READ ||| WRITE)] := rfl
  refine ⟨?_, ?_, rfl, ?_⟩
  · simp [SpecSorted, mkchPerms, List.chain'_cons, rkRank]
  · rw [hsort]
    simp [SpecSorted, List.chain'_cons, rkRank]
  · rw [hsort]
    simp [resolvePermission, List.find?, matchesKind]

/-- Claim C5, witness: the amended theorem applied at the concrete
creator carol. -/
theorem c5_witness :
    ¬ SpecSorted (mkchPerms "carol") ∧
    SpecSorted (sortPerms (mkchPerms "carol")) ∧
    resolvePermission (mkchPerms "carol") "carol" [] = READ ||| WRITE ∧
    resolvePermission (sortPerms (mkchPerms "carol")) "carol" []
      = READ ||| WRITE ||| MANAGE :=
  c5_amended "carol"

/-- Claim C2: evaluation of the broadcast at the failing scenario.  Two
sessions are subscribed to one channel (two empty queues); session alice
closes, so channel_close publishes its events into the bus, which appends
them to every subscriber's queue.  The other subscriber's next try_recv
yields Terminate and its loop match is exit - the loop of a session that
did not emit the sentinel stops - while a non-Terminate event would have
been delivered. -/
theorem c2_code_bug_eval :
    publishAll [[], []] (channelCloseEvents "alice")
      = [[Event.terminate, Event.leave "alice"],
         [Event.terminate, Event.leave "alice"]] ∧
    loopStep (recvHead [Event.terminate, Event.leave "alice"]) = LoopAction.exit ∧
    loopStep (RecvResult.ok (Event.leave "alice"))
      = LoopAction.deliver (Event.leave "alice") :=
  ⟨rfl, rfl, rfl⟩

/-- Claim C7: evaluation of channel_close at the failing input.  On
teardown of session alice the source sends Terminate first and Leave
second, not Leave then Terminate as the claim states. -/
theorem c7_code_bug_eval :
    channelCloseEvents "alice" = [Event.terminate, Event.leave "alice"] ∧
    channelCloseEvents "alice" ≠ [Event.leave "alice", Event.terminate] :=
  ⟨rfl, by decide⟩

/-- Claim C6, counterexample: no maximum buffer length exists.  For any
proposed cap, a Normal-state editor whose buffer is exactly that long
still accepts the non-control byte 97: the insertion arm changes the
buffer (its length grows), contradicting the claimed silent rejection. -/
theorem c6_counterexample : ¬ claimC6core := by
  rintro ⟨maxLen, h⟩
  have h97 := h ⟨List.replicate maxLen 97, 0, UserState.normal⟩ [97]
    rfl (by simp) (by decide) (by decide)
  have hbuf : (handleData ⟨List.replicate maxLen 97, 0, UserState.normal⟩ [97]).1.buffer
      = 97 :: List.replicate maxLen 97 := by
    simp [handleData]
  rw [hbuf] at h97
  have hlen := congrArg List.length h97.1
  simp at hlen

/-- Claim C6, amended: the insertion arm imposes no maximum buffer
length.  Every non-control byte sequence is spliced into the buffer at
the cursor - the buffer grows by the input's length and the cursor
advances by it - at any buffer size; and Enter on a nonempty buffer whose
trimmed form does not start with a colon submits the full buffer contents
as a Msg event and clears buffer and cursor. -/
theorem c6_amended :
    (∀ (u : EditorUser) (d : List Nat), u.state = UserState.normal →
      isControlSeq d = false → u.cursor ≤ u.buffer.length →
      (handleData u d).1.buffer.length = u.buffer.length + d.length ∧
      (handleData u d).1.cursor = u.cursor + d.length)
    ∧ (∀ (b : List Nat) (c : Nat), b ≠ [] → stripPrefixColon (trim b) = none →
      handleData ⟨b, c, UserState.normal⟩ [13]
        = (⟨[], 0, UserState.normal⟩, HAction.submitMsg b)) := by
  constructor
  · intro u d hst hctl hcur
    simp only [isControlSeq, Bool.or_eq_false_iff, beq_eq_false_iff_ne] at hctl
    obtain ⟨⟨⟨⟨⟨⟨h3, h13⟩, h127⟩, h65⟩, h66⟩, h67⟩, h68⟩ := hctl
    obtain ⟨buf, cur, st⟩ := u
    simp only [EditorUser.state] at hst
    subst hst
    simp only [EditorUser.cursor, EditorUser.buffer] at hcur ⊢
    simp [handleData, h3, h13, h127, h65, h66, h67, h68, List.length_append,
      List.length_take, List.length_drop, Nat.min_eq_left hcur]
    omega
  · intro b c hb hstrip
    simp [handleData, hb, hstrip]

/-- Claim C6, witness: the amended theorem applied at concrete inputs -
inserting byte 101 into a one-byte buffer with the cursor at its end, and
submitting the two-byte non-command buffer with Enter. -/
theorem c6_witness :
    ((handleData ⟨[100], 1, UserState.normal⟩ [101]).1.buffer.length = 2 ∧
     (handleData ⟨[100], 1, UserState.normal⟩ [101]).1.cursor = 2) ∧
    handleData ⟨[104, 105], 0, UserState.normal⟩ [13]
      = (⟨[], 0, UserState.normal⟩, HAction.submitMsg [104, 105]) :=
  ⟨c6_amended.1 ⟨[100], 1, UserState.normal⟩ [101] rfl (by decide) (by decide),
   c6_amended.2 [104, 105] 0 (by decide) (by decide)⟩

/-- Claim C9, counterexample: in the Info state the dismissing keystroke
is consumed, it does not additionally take its normal effect.  Byte 98
arriving over the overlay leaves the buffer as it was, while the same
byte processed in the restored Normal state would have been inserted -
the two resulting editors differ. -/
theorem c9_counterexample :
    (handleData ⟨[97], 1, UserState.info [72]⟩ [98]).1
      ≠ (handleData ⟨[97], 1, UserState.normal⟩ [98]).1 := by decide

/-- Claim C9, amended: any raw input arriving while the state is
Info(overlay) only dismisses the overlay - the state becomes Normal, the
buffer and cursor are untouched, and the input is consumed entirely by
the dismissal; it takes its normal effect only if sent again. -/
theorem c9_amended (u : EditorUser) (d input : List Nat)
    (h : u.state = UserState.info d) :
    handleData u input = ({ u with state := UserState.normal },
      HAction.overlayDismissed) := by
  obtain ⟨buf, cur, st⟩ := u
  cases st with
  | info x => simp [handleData]
  | normal => simp [EditorUser.state] at h

/-- Claim C9, witness: the amended theorem applied to an editor showing
the overlay byte 65, receiving the Enter byte. -/
theorem c9_witness :
    handleData ⟨[], 0, UserState.info [65]⟩ [13]
      = (⟨[], 0, UserState.normal⟩, HAction.overlayDismissed) :=
  c9_amended ⟨[], 0, UserState.info [65]⟩ [65] [13] rfl

/-- Claim C10: evaluation of the trim index computation at the failing
input.  For the one-byte all-whitespace slice (a single space, byte 32)
the start index is 1 and the end index is 0, so the range violates
start less-or-equal end and with it the in-bounds contract of the
unchecked slicing; the claim asserts start <= end <= length always
holds.  A slice with a non-whitespace byte shows the intended behavior
for contrast. -/
theorem c10_code_bug_eval :
    trimStart [32] = 1 ∧ trimEnd [32] = 0 ∧ ¬ (trimStart [32] ≤ trimEnd [32]) ∧
    trimStart [32, 97, 32] = 1 ∧ trimEnd [32, 97, 32] = 2 ∧
    trim [32, 97, 32] = [97] := by decide

/-- Claim C8, counterexample: the dispatcher splits the line
reply bob(2 spaces)hi(3 spaces)there on single spaces, the reply arm
rejoins the argument tokens with single spaces - which reconstructs the
original spacing exactly, because empty tokens stand for the extra
spaces - and splits once at the first space.  The forwarded message is
(space)hi(3 spaces)there with every interior run preserved, not the
collapsed hi(1 space)there the claim describes. -/
theorem c8_counterexample :
    splitSpace "reply bob  hi   there".toList
      = ["reply".toList, "bob".toList, [], "hi".toList, [], [], "there".toList] ∧
    replyCmd ["bob".toList] ["bob".toList, [], "hi".toList, [], [], "there".toList]
      = Except.ok ("bob".toList, " hi   there".toList) ∧
    (" hi   there".toList ≠ "hi there".toList) :=
  ⟨rfl, rfl, by decide⟩

/-- Claim C8, amended: rejoining the split tokens with single spaces is
the exact inverse of splitting on single spaces, so the rejoined argument
text reproduces the original line after the command token, interior space
runs included; the forwarded message is everything after the first space
of that text.  The recipient check is against the account registry as the
claim states: an absent name yields NotFound, a present one sends the
reply. -/
theorem c8_amended :
    (∀ (l cmd : List Char) (args : List (List Char)),
      splitSpace l = cmd :: args → args ≠ [] →
      cmd ++ ' ' :: joinSpace args = l)
    ∧ (∀ (users : List (List Char)) (args : List (List Char))
        (name msg : List Char),
        splitOnceSpace (joinSpace args) = some (name, msg) →
        users.contains name = false →
        replyCmd users args = Except.error CommandError.NotFound)
    ∧ (∀ (users : List (List Char)) (args : List (List Char))
        (name msg : List Char),
        splitOnceSpace (joinSpace args) = some (name, msg) →
        users.contains name = true →
        replyCmd users args = Except.ok (name, msg)) := by
  refine ⟨?_, ?_, ?_⟩
  · intro l cmd args hsplit hargs
    have hid := joinSpace_splitSpace l
    rw [hsplit] at hid
    cases args with
    | nil => exact absurd rfl hargs
    | cons a t => exact hid
  · intro users args name msg hsplit hmem
    simp [replyCmd, hsplit]
    simpa using hmem
  · intro users args name msg hsplit hmem
    simp [replyCmd, hsplit]
    simpa using hmem

/-- Claim C8, witness: the amended theorem applied at the spec's
scenario - the split/join round-trip on the original line, NotFound
against an empty registry, and success when bob is registered. -/
theorem c8_witness :
    "reply".toList ++ ' ' :: joinSpace
        ["bob".toList, [], "hi".toList, [], [], "there".toList]
      = "reply bob  hi   there".toList ∧
    replyCmd [] ["bob".toList, [], "hi".toList, [], [], "there".toList]
      = Except.error CommandError.NotFound ∧
    replyCmd ["bob".toList] ["bob".toList, [], "hi".toList, [], [], "there".toList]
      = Except.ok ("bob".toList, " hi   there".toList) :=
  ⟨c8_amended.1 "reply bob  hi   there".toList "reply".toList
      ["bob".toList, [], "hi".toList, [], [], "there".toList] rfl (by decide),
   c8_amended.2.1 [] ["bob".toList, [], "hi".toList, [], [], "there".toList]
      "bob".toList " hi   there".toList rfl rfl,
   c8_amended.2.2 ["bob".toList] ["bob".toList, [], "hi".toList, [], [], "there".toList]
      "bob".toList " hi   there".toList rfl rfl⟩

end Crussh
